import Mathlib

/-!
Verification development for the Knowledge-Base Ingestion Pipeline
(`apps/worker/src/kb_pipeline`).  The Python source is shallowly embedded:
pure functions become Lean functions, the per-task stage state machine of
`repository.py` becomes a step relation on an explicit task-state record,
and the remote clients become loops over an abstract script of remote
responses.  Machine floats (embedding values, back-off delays) are modelled
as rationals; their numeric values are never computed with, only stored.
-/

namespace KbPipeline

/-- Per-stage status, `kb_ingest_tasks.<stage>_status` (`models.py`,
`LlmStatus`/`EmbedStatus`/`UpsertStatus`). -/
inductive StageStatus
  | pending
  | running
  | succeeded
  | failed
deriving DecidableEq, Repr

/-- Derived task verdict, `kb_ingest_tasks.final_status` (`models.py`,
`FinalStatus`). -/
inductive FinalStatus
  | pending
  | completed
  | failed
deriving DecidableEq, Repr

/-- One of the three pipeline stages. -/
inductive Stage
  | llm
  | embed
  | upsert
deriving DecidableEq, Repr

/-- The columns of one `kb_ingest_tasks` row that the stage transitions of
`repository.py` read or write.  Bookkeeping columns (timestamps, error
strings, retry counters) are omitted: no transition branches on them.
`embedding` models the `vector(1536)` column, `structuredPresent` whether
`structured_json` is non-NULL. -/
structure TaskState where
  llm : StageStatus
  embed : StageStatus
  upsert : StageStatus
  final : FinalStatus
  embedding : Option (List ℚ)
  structuredPresent : Bool
deriving DecidableEq, Repr

/-- Task creation (`create_run_from_plan`, `repository.py` lines 89-107):
every stage status and the final status start as `PENDING`, outputs NULL. -/
def initTask : TaskState :=
  { llm := .pending
    embed := .pending
    upsert := .pending
    final := .pending
    embedding := none
    structuredPresent := false }

/-- `KbRepository._mark_stage_running` (`repository.py` lines 236-249):
sets the one stage status to `RUNNING`; no other modelled column changes. -/
def markStageRunning (stage : Stage) (s : TaskState) : TaskState :=
  match stage with
  | .llm => { s with llm := .running }
  | .embed => { s with embed := .running }
  | .upsert => { s with upsert := .running }

/-- `KbRepository.save_llm_success` (`repository.py` lines 251-274).  SQL
`SET` expressions read the pre-update row, so every `CASE` below tests the
old `embed_status`/`upsert_status`. -/
def saveLlmSuccess (s : TaskState) : TaskState :=
  { s with
    llm := .succeeded
    embed := if s.embed = .succeeded then s.embed else .pending
    upsert := if s.upsert = .succeeded then s.upsert else .pending
    final := if s.upsert = .succeeded then .completed else .pending
    structuredPresent := true }

/-- `KbRepository.save_embed_success` (`repository.py` lines 279-301):
stores the vector and advances `final_status` iff the old `upsert_status`
was already `SUCCEEDED`. -/
def saveEmbedSuccess (v : List ℚ) (s : TaskState) : TaskState :=
  { s with
    embed := .succeeded
    upsert := if s.upsert = .succeeded then s.upsert else .pending
    final := if s.upsert = .succeeded then .completed else .pending
    embedding := some v }

/-- `KbRepository.save_upsert_success` (`repository.py` lines 364-374, the
task half of the transaction): `upsert_status := SUCCEEDED`,
`final_status := COMPLETED`. -/
def saveUpsertSuccess (s : TaskState) : TaskState :=
  { s with upsert := .succeeded, final := .completed }

/-- `KbRepository._save_stage_failure` (`repository.py` lines 380-404).
The SQL `CASE WHEN stage = upsert OR stage = embed OR stage = llm` covers
all three stages, so `final_status` always becomes `FAILED`. -/
def saveStageFailure (stage : Stage) (s : TaskState) : TaskState :=
  let base :=
    match stage with
    | .llm => { s with llm := .failed }
    | .embed => { s with embed := .failed }
    | .upsert => { s with upsert := .failed }
  { base with
    final :=
      if stage = .upsert ∨ stage = .embed ∨ stage = .llm then .failed
      else s.final }

/-- One repository transition on a task row, guarded by the states in which
the orchestrator issues it (`orchestrator.py`).  A stage worker runs
`mark_<stage>_running` only on a task id it dequeued; ids enter a stage
queue only from `queue_seed` (`repository.py` lines 148-168: skip
`final_status = COMPLETED`, route to the earliest non-`SUCCEEDED` stage) or
by forwarding right after the predecessor stage saved success.  Between the
dequeue and the save the single worker owning the id performs both calls
back to back, so at save time the stage status is the `RUNNING` it has just
written.  The `save_embed_success` guard `v.length = 1536` models the
`vector(1536)` column of `kb_ingest_tasks` (migration
`20260223_0002_kb_ingest_pipeline.py` line 95): an UPDATE with any other
dimension is rejected by the store and surfaces as a stage failure
instead. -/
inductive StepTask : TaskState → TaskState → Prop
  | markLlm (s : TaskState) (hf : s.final ≠ .completed) (hl : s.llm ≠ .succeeded) :
      StepTask s (markStageRunning .llm s)
  | saveLlmOk (s : TaskState) (h : s.llm = .running) :
      StepTask s (saveLlmSuccess s)
  | saveLlmFail (s : TaskState) (h : s.llm = .running) :
      StepTask s (saveStageFailure .llm s)
  | markEmbed (s : TaskState) (hf : s.final ≠ .completed) (hl : s.llm = .succeeded)
      (he : s.embed ≠ .succeeded) :
      StepTask s (markStageRunning .embed s)
  | saveEmbedOk (s : TaskState) (v : List ℚ) (h : s.embed = .running)
      (hv : v.length = 1536) :
      StepTask s (saveEmbedSuccess v s)
  | saveEmbedFail (s : TaskState) (h : s.embed = .running) :
      StepTask s (saveStageFailure .embed s)
  | markUpsert (s : TaskState) (hf : s.final ≠ .completed) (hl : s.llm = .succeeded)
      (he : s.embed = .succeeded) (hu : s.upsert ≠ .succeeded) :
      StepTask s (markStageRunning .upsert s)
  | saveUpsertOk (s : TaskState) (h : s.upsert = .running) :
      StepTask s (saveUpsertSuccess s)
  | saveUpsertFail (s : TaskState) (h : s.upsert = .running) :
      StepTask s (saveStageFailure .upsert s)

/-- A task state is reachable when some sequence of repository transitions
produces it from the freshly created row. -/
def ReachableTask (s : TaskState) : Prop :=
  Relation.ReflTransGen StepTask initTask s

/-- The inductive task invariant: the `final_status`/`upsert_status`
equivalence (spec invariant 1), stage monotonicity (spec invariants 2-3)
and the fixed embedding dimension. -/
def TaskInv (s : TaskState) : Prop :=
  (s.final = .completed ↔ s.upsert = .succeeded) ∧
  ((s.embed = .running ∨ s.embed = .succeeded) → s.llm = .succeeded) ∧
  ((s.upsert = .running ∨ s.upsert = .succeeded) →
      s.llm = .succeeded ∧ s.embed = .succeeded) ∧
  (s.embed = .succeeded → ∃ v, s.embedding = some v ∧ v.length = 1536)

theorem taskInv_init : TaskInv initTask := by
  refine ⟨by simp [initTask], ?_, ?_, ?_⟩ <;> simp [initTask]

theorem stepTask_preserves_inv {s s' : TaskState} (hinv : TaskInv s)
    (hstep : StepTask s s') : TaskInv s' := by
  obtain ⟨h1, h2, h3, h4⟩ := hinv
  cases hstep with
  | markLlm hf hl =>
      refine ⟨?_, ?_, ?_, ?_⟩ <;>
        simp_all [markStageRunning]
  | saveLlmOk h =>
      have he : s.embed ≠ .succeeded := fun hc => by
        have := h2 (Or.inr hc); rw [h] at this; exact absurd this (by decide)
      have hu : s.upsert ≠ .succeeded := fun hc => by
        have := (h3 (Or.inr hc)).1; rw [h] at this; exact absurd this (by decide)
      refine ⟨?_, ?_, ?_, ?_⟩ <;>
        simp [saveLlmSuccess, he, hu]
  | saveLlmFail h =>
      have hu : s.upsert ≠ .succeeded := fun hc => by
        have := (h3 (Or.inr hc)).1; rw [h] at this; exact absurd this (by decide)
      have hur : s.upsert ≠ .running := fun hc => by
        have := (h3 (Or.inl hc)).1; rw [h] at this; exact absurd this (by decide)
      have her : s.embed ≠ .running := fun hc => by
        have := h2 (Or.inl hc); rw [h] at this; exact absurd this (by decide)
      have hes : s.embed ≠ .succeeded := fun hc => by
        have := h2 (Or.inr hc); rw [h] at this; exact absurd this (by decide)
      refine ⟨?_, ?_, ?_, ?_⟩ <;>
        simp [saveStageFailure, hu, hur, her, hes]
  | markEmbed hf hl he =>
      refine ⟨?_, ?_, ?_, ?_⟩ <;>
        simp_all [markStageRunning]
  | saveEmbedOk v h hv =>
      have hl : s.llm = .succeeded := h2 (Or.inl h)
      have hu : s.upsert ≠ .succeeded := fun hc => by
        have := (h3 (Or.inr hc)).2; rw [h] at this; exact absurd this (by decide)
      refine ⟨?_, ?_, ?_, ?_⟩ <;>
        simp [saveEmbedSuccess, hl, hu, hv]
  | saveEmbedFail h =>
      have hl : s.llm = .succeeded := h2 (Or.inl h)
      have hu : s.upsert ≠ .succeeded := fun hc => by
        have := (h3 (Or.inr hc)).2; rw [h] at this; exact absurd this (by decide)
      have hur : s.upsert ≠ .running := fun hc => by
        have := (h3 (Or.inl hc)).2; rw [h] at this; exact absurd this (by decide)
      refine ⟨?_, ?_, ?_, ?_⟩ <;>
        simp [saveStageFailure, hl, hu, hur]
  | markUpsert hf hl he hu =>
      refine ⟨?_, ?_, ?_, ?_⟩ <;>
        simp_all [markStageRunning]
  | saveUpsertOk h =>
      have hle : s.llm = .succeeded ∧ s.embed = .succeeded := h3 (Or.inl h)
      refine ⟨?_, ?_, ?_, ?_⟩ <;>
        simp [saveUpsertSuccess, hle.1, hle.2, h4 hle.2]
  | saveUpsertFail h =>
      have hle := h3 (Or.inl h)
      refine ⟨?_, ?_, ?_, ?_⟩ <;>
        simp [saveStageFailure, hle.1, hle.2, h4 hle.2]

theorem reachableTask_inv {s : TaskState} (h : ReachableTask s) : TaskInv s := by
  induction h with
  | refl => exact taskInv_init
  | tail _ hstep ih => exact stepTask_preserves_inv ih hstep

/-- C1: in every reachable task state the final status is `COMPLETED` iff
the upsert status is `SUCCEEDED`, and every repository transition (task
creation is the initial state, the others are the `StepTask` constructors:
`mark_<stage>_running`, `save_llm_success`, `save_embed_success`,
`save_upsert_success`, `save_<stage>_failure`) preserves this
equivalence. -/
theorem final_completed_iff_upsert_succeeded (s s' : TaskState)
    (h : ReachableTask s) :
    (s.final = .completed ↔ s.upsert = .succeeded) ∧
    (StepTask s s' → (s'.final = .completed ↔ s'.upsert = .succeeded)) :=
  ⟨(reachableTask_inv h).1,
   fun hst => (stepTask_preserves_inv (reachableTask_inv h) hst).1⟩

theorem final_completed_iff_upsert_succeeded_witness :
    (initTask.final = .completed ↔ initTask.upsert = .succeeded) ∧
    (StepTask initTask (markStageRunning .llm initTask) →
      ((markStageRunning .llm initTask).final = .completed ↔
        (markStageRunning .llm initTask).upsert = .succeeded)) :=
  final_completed_iff_upsert_succeeded initTask (markStageRunning .llm initTask)
    Relation.ReflTransGen.refl

/-- C6: in every reachable task state, a `SUCCEEDED` embed status implies a
`SUCCEEDED` llm status and a stored embedding of exactly 1536 entries (the
dimension enforced by the `vector(1536)` column the success UPDATE writes
into). -/
theorem embed_succeeded_needs_llm_and_dim (s : TaskState)
    (h : ReachableTask s) (he : s.embed = .succeeded) :
    s.llm = .succeeded ∧ ∃ v, s.embedding = some v ∧ v.length = 1536 := by
  obtain ⟨_, _, _, h4⟩ := reachableTask_inv h
  refine ⟨?_, h4 he⟩
  exact (reachableTask_inv h).2.1 (Or.inr he)

/-- A concrete reachable state with a succeeded embed stage: seed the task,
run the llm stage to success, then the embed stage to success with a
1536-entry vector. -/
def demoEmbedDone : TaskState :=
  saveEmbedSuccess (List.replicate 1536 0)
    (markStageRunning .embed (saveLlmSuccess (markStageRunning .llm initTask)))

theorem embed_succeeded_needs_llm_and_dim_witness :
    demoEmbedDone.llm = .succeeded ∧
    ∃ v, demoEmbedDone.embedding = some v ∧ v.length = 1536 := by
  have h1 : StepTask initTask (markStageRunning .llm initTask) :=
    .markLlm initTask (by decide) (by decide)
  have h2 : StepTask (markStageRunning .llm initTask)
      (saveLlmSuccess (markStageRunning .llm initTask)) :=
    .saveLlmOk _ (by decide)
  have h3 : StepTask (saveLlmSuccess (markStageRunning .llm initTask))
      (markStageRunning .embed (saveLlmSuccess (markStageRunning .llm initTask))) :=
    .markEmbed _ (by decide) (by decide) (by decide)
  have h4 : StepTask
      (markStageRunning .embed (saveLlmSuccess (markStageRunning .llm initTask)))
      demoEmbedDone :=
    .saveEmbedOk _ (List.replicate 1536 0) (by decide)
      (by rw [List.length_replicate])
  have hr : ReachableTask demoEmbedDone :=
    (((Relation.ReflTransGen.refl.tail h1).tail h2).tail h3).tail h4
  exact embed_succeeded_needs_llm_and_dim demoEmbedDone hr (by decide)

/-! ## Chunking (`chunking.py`)

`chunk_tokens` slides a `chunk_size` window with step `chunk_size - overlap`
over the encoded token sequence.  Tokens are abstract (`Nat`); decoding is
the identity on the token windows, since only the windows and their number
matter to the claims. -/

/-- The `for start in range(0, len(tokens), step)` loop of `chunk_tokens`
(`chunking.py` lines 27-33).  `fuel` bounds the number of loop iterations;
the caller passes `tokens.length`, an upper bound on how many start offsets
`range` can yield. -/
def windowsLoop (tokens : List Nat) (chunkSize step : Nat) :
    Nat → Nat → List (List Nat)
  | _, 0 => []
  | start, fuel + 1 =>
    if tokens.length ≤ start then []
    else
      let window := (tokens.drop start).take chunkSize
      if window = [] then []
      else
        window ::
          (if tokens.length ≤ start + chunkSize then []
           else windowsLoop tokens chunkSize step (start + step) fuel)

/-- `chunk_tokens` (`chunking.py` lines 19-34): raises `ValueError` when
`overlap >= chunk_size`, returns `[]` on an empty token sequence, otherwise
the list of sliding windows. -/
def chunk_tokens (tokens : List Nat) (chunkSize overlap : Nat) :
    Except String (List (List Nat)) :=
  if chunkSize ≤ overlap then
    .error "overlap must be smaller than chunk_size"
  else if tokens = [] then .ok []
  else .ok (windowsLoop tokens chunkSize (chunkSize - overlap) 0 tokens.length)

/-- Modelled from the spec (invariant 7, the claimed chunk-count formula):
the number of chunks is the integer ceiling of
`max(0, D - overlap) / (chunk_size - overlap)`. -/
def specChunkCount (d chunkSize overlap : Nat) : ℤ :=
  ⌈(max 0 ((d : ℚ) - overlap)) / ((chunkSize : ℚ) - overlap)⌉

theorem windowsLoop_length (tokens : List Nat) (chunkSize step : Nat)
    (hstep : 0 < step) (hC : step ≤ chunkSize) :
    ∀ fuel start, start < tokens.length →
      tokens.length ≤ start + fuel * step →
      (windowsLoop tokens chunkSize step start fuel).length =
        max 1 ((tokens.length - start - (chunkSize - step) + step - 1) / step) := by
  intro fuel
  induction fuel with
  | zero => intro start hstart hfuel; omega
  | succ fuel ih =>
      intro start hstart hfuel
      rw [Nat.succ_mul] at hfuel
      have hwin : (tokens.drop start).take chunkSize ≠ [] := by
        simp [List.take_eq_nil_iff, List.drop_eq_nil_iff]
        omega
      by_cases hstop : tokens.length ≤ start + chunkSize
      · have hx : tokens.length - start - (chunkSize - step) ≤ step := by omega
        have hlt : (tokens.length - start - (chunkSize - step) + step - 1) / step < 2 := by
          rw [Nat.div_lt_iff_lt_mul hstep]; omega
        rw [windowsLoop]
        simp only [if_neg (by omega : ¬ tokens.length ≤ start), if_pos hstop,
          if_neg hwin]
        simp only [List.length_cons, List.length_nil]
        omega
      · have hrec := ih (start + step) (by omega) (by omega)
        rw [windowsLoop]
        simp only [if_neg (by omega : ¬ tokens.length ≤ start), if_neg hstop,
          if_neg hwin]
        simp only [List.length_cons, hrec]
        have hy : step < tokens.length - start - (chunkSize - step) := by omega
        have h1 : tokens.length - (start + step) - (chunkSize - step) + step - 1 =
            tokens.length - start - (chunkSize - step) - 1 := by omega
        rw [h1]
        have h2 : 1 ≤ (tokens.length - start - (chunkSize - step) - 1) / step := by
          rw [Nat.le_div_iff_mul_le hstep]; omega
        have h3 : tokens.length - start - (chunkSize - step) + step - 1 =
            (tokens.length - start - (chunkSize - step) - 1) + step := by omega
        rw [h3, Nat.add_div_right _ hstep]
        have h4 : 1 ≤ ((tokens.length - start - (chunkSize - step) - 1) / step + 1) := by
          omega
        omega

/-- C2 (amended): with `0 ≤ overlap < chunk_size` and a non-empty token
sequence of length `D`, `chunk_tokens` produces exactly
`max 1 ⌈(D - overlap) / (chunk_size - overlap)⌉` chunks (the original
formula, with the quotient floored at one), and `0` chunks when `D = 0`.
The subtraction is the truncated one, so the numerator is the claimed
`max(0, D - overlap)`. -/
theorem chunk_tokens_count (tokens : List Nat) (chunkSize overlap : Nat)
    (hv : overlap < chunkSize) :
    ∃ ws, chunk_tokens tokens chunkSize overlap = .ok ws ∧
      ws.length =
        if tokens.length = 0 then 0
        else max 1 ((tokens.length - overlap + (chunkSize - overlap) - 1) /
          (chunkSize - overlap)) := by
  by_cases hnil : tokens = []
  · subst hnil
    exact ⟨[], by simp [chunk_tokens, Nat.not_le_of_lt hv], by simp⟩
  · refine ⟨windowsLoop tokens chunkSize (chunkSize - overlap) 0 tokens.length,
      ?_, ?_⟩
    · simp [chunk_tokens, Nat.not_le_of_lt hv, hnil]
    · have hlen : 0 < tokens.length := List.length_pos.mpr hnil
      rw [if_neg (by omega)]
      have := windowsLoop_length tokens chunkSize (chunkSize - overlap)
        (by omega) (by omega) tokens.length 0 hlen
        (by have := Nat.le_mul_of_pos_right tokens.length
              (show 0 < chunkSize - overlap by omega)
            omega)
      rw [this]
      have hco : chunkSize - (chunkSize - overlap) = overlap := by omega
      rw [hco]
      simp only [Nat.sub_zero]

/-- C2 (counterexample to the claim as stated): a document of one token with
`chunk_size = 2`, `overlap = 1` has `D = 1 ≤ overlap`, the claimed count
`⌈max(0, 1 - 1) / (2 - 1)⌉ = 0`, yet `chunk_tokens` produces one chunk. -/
theorem chunk_tokens_count_claim_false :
    chunk_tokens [0] 2 1 = .ok [[0]] ∧ specChunkCount 1 2 1 = 0 ∧
      (1 : ℤ) ≠ 0 := by
  refine ⟨by rfl, ?_, by decide⟩
  have : (max 0 ((1 : ℚ) - 1)) / ((2 : ℚ) - 1) = 0 := by norm_num
  rw [specChunkCount]
  push_cast
  rw [this]
  exact Int.ceil_zero

theorem chunk_tokens_count_witness :
    ∃ ws, chunk_tokens [1, 2, 3] 2 1 = .ok ws ∧
      ws.length =
        if ([1, 2, 3] : List Nat).length = 0 then 0
        else max 1 ((([1, 2, 3] : List Nat).length - 1 + (2 - 1) - 1) / (2 - 1)) :=
  chunk_tokens_count [1, 2, 3] 2 1 (by decide)

/-! ## Queue seeding (`repository.py`, `queue_seed`)

`queue_seed` reads the task rows of a run in `(source_id, chunk_index)`
order and partitions the non-completed ones over the three stage queues. -/

/-- The fields of a task row that `queue_seed` and `finalize_run` read,
together with the row id. -/
structure TaskRow where
  id : Nat
  st : TaskState
deriving DecidableEq, Repr

/-- The three seed lists returned by `queue_seed` (`models.py`,
`RunQueueSeed`). -/
structure RunQueueSeed where
  llm_task_ids : List Nat
  embed_task_ids : List Nat
  upsert_task_ids : List Nat
deriving DecidableEq, Repr

/-- The branch structure of one `queue_seed` loop iteration
(`repository.py` lines 148-168): skip `final_status = COMPLETED` rows,
route to the earliest non-`SUCCEEDED` stage, and under `failed_only` route
only when that stage is `FAILED`. -/
def queueSeedRoute (failedOnly : Bool) (r : TaskRow) : Option Stage :=
  if r.st.final = .completed then none
  else if r.st.llm ≠ .succeeded then
    if failedOnly ∧ r.st.llm ≠ .failed then none else some .llm
  else if r.st.embed ≠ .succeeded then
    if failedOnly ∧ r.st.embed ≠ .failed then none else some .embed
  else if r.st.upsert ≠ .succeeded then
    if failedOnly ∧ r.st.upsert ≠ .failed then none else some .upsert
  else none

/-- `queue_seed` (`repository.py` lines 134-169): fold the routing decision
over the ordered rows, appending each routed id to its stage list. -/
def queue_seed (rows : List TaskRow) (failedOnly : Bool) : RunQueueSeed :=
  rows.foldr
    (fun r acc =>
      match queueSeedRoute failedOnly r with
      | none => acc
      | some .llm => { acc with llm_task_ids := r.id :: acc.llm_task_ids }
      | some .embed => { acc with embed_task_ids := r.id :: acc.embed_task_ids }
      | some .upsert => { acc with upsert_task_ids := r.id :: acc.upsert_task_ids })
    ⟨[], [], []⟩

/-- The list of one stage of a seed. -/
def RunQueueSeed.stageList (seed : RunQueueSeed) : Stage → List Nat
  | .llm => seed.llm_task_ids
  | .embed => seed.embed_task_ids
  | .upsert => seed.upsert_task_ids

/-- Modelled from the spec (invariant 8): the earliest stage of a row whose
status is not `SUCCEEDED` (`llm` before `embed` before `upsert`). -/
def earliestNonSucceeded (r : TaskRow) : Stage :=
  if r.st.llm ≠ .succeeded then .llm
  else if r.st.embed ≠ .succeeded then .embed
  else .upsert

/-- The stage status of a row at a given stage. -/
def TaskRow.stageStatus (r : TaskRow) : Stage → StageStatus
  | .llm => r.st.llm
  | .embed => r.st.embed
  | .upsert => r.st.upsert

theorem mem_stageList_queue_seed {rows : List TaskRow} {failedOnly : Bool}
    {st : Stage} {i : Nat} :
    i ∈ (queue_seed rows failedOnly).stageList st ↔
      ∃ r ∈ rows, r.id = i ∧ queueSeedRoute failedOnly r = some st := by
  induction rows with
  | nil => cases st <;> simp [queue_seed, RunQueueSeed.stageList]
  | cons r rest ih =>
      rcases hroute : queueSeedRoute failedOnly r with _ | st'
      · have h : (queue_seed (r :: rest) failedOnly).stageList st =
            (queue_seed rest failedOnly).stageList st := by
          cases st <;> simp [queue_seed, RunQueueSeed.stageList, hroute]
        rw [h, ih]
        constructor
        · rintro ⟨r', hr', hid, hs⟩
          exact ⟨r', List.mem_cons_of_mem _ hr', hid, hs⟩
        · rintro ⟨r', hr', hid, hs⟩
          rcases List.mem_cons.mp hr' with rfl | hmem
          · rw [hroute] at hs; cases hs
          · exact ⟨r', hmem, hid, hs⟩
      · by_cases hst : st' = st
        · subst hst
          have h : (queue_seed (r :: rest) failedOnly).stageList st' =
              r.id :: (queue_seed rest failedOnly).stageList st' := by
            cases st' <;> simp [queue_seed, RunQueueSeed.stageList, hroute]
          rw [h]
          simp only [List.mem_cons, ih]
          constructor
          · rintro (rfl | ⟨r', hr', hid, hs⟩)
            · exact ⟨r, Or.inl rfl, rfl, hroute⟩
            · exact ⟨r', Or.inr hr', hid, hs⟩
          · rintro ⟨r', rfl | hmem, hid, hs⟩
            · exact Or.inl hid.symm
            · exact Or.inr ⟨r', hmem, hid, hs⟩
        · have h : (queue_seed (r :: rest) failedOnly).stageList st =
              (queue_seed rest failedOnly).stageList st := by
            cases st' <;> cases st <;>
              first
              | exact absurd rfl hst
              | simp [queue_seed, RunQueueSeed.stageList, hroute]
          rw [h, ih]
          constructor
          · rintro ⟨r', hr', hid, hs⟩
            exact ⟨r', List.mem_cons_of_mem _ hr', hid, hs⟩
          · rintro ⟨r', hr', hid, hs⟩
            rcases List.mem_cons.mp hr' with rfl | hmem
            · rw [hroute] at hs
              injection hs with h'
              exact absurd h' hst
            · exact ⟨r', hmem, hid, hs⟩

theorem queueSeedRoute_eq_some (failedOnly : Bool) (r : TaskRow)
    (hf : r.st.final ≠ .completed)
    (hinv : r.st.upsert = .succeeded → r.st.final = .completed)
    (hcond : failedOnly = false ∨ r.stageStatus (earliestNonSucceeded r) = .failed) :
    queueSeedRoute failedOnly r = some (earliestNonSucceeded r) := by
  have hu : r.st.upsert ≠ .succeeded := fun hc => hf (hinv hc)
  by_cases hl : r.st.llm = .succeeded
  · by_cases hb : r.st.embed = .succeeded
    · have he : earliestNonSucceeded r = .upsert := by
        simp [earliestNonSucceeded, hl, hb]
      rw [he] at hcond ⊢
      rcases hcond with rfl | hfl
      · simp [queueSeedRoute, hf, hl, hb, hu]
      · simp only [TaskRow.stageStatus] at hfl
        simp [queueSeedRoute, hf, hl, hb, hu, hfl]
    · have he : earliestNonSucceeded r = .embed := by
        simp [earliestNonSucceeded, hl, hb]
      rw [he] at hcond ⊢
      rcases hcond with rfl | hfl
      · simp [queueSeedRoute, hf, hl, hb]
      · simp only [TaskRow.stageStatus] at hfl
        simp [queueSeedRoute, hf, hl, hb, hfl]
  · have he : earliestNonSucceeded r = .llm := by
      simp [earliestNonSucceeded, hl]
    rw [he] at hcond ⊢
    rcases hcond with rfl | hfl
    · simp [queueSeedRoute, hf, hl]
    · simp only [TaskRow.stageStatus] at hfl
      simp [queueSeedRoute, hf, hl, hfl]

theorem queueSeedRoute_eq_none (r : TaskRow)
    (hnf : r.stageStatus (earliestNonSucceeded r) ≠ .failed) :
    queueSeedRoute true r = none := by
  by_cases hf : r.st.final = .completed
  · simp [queueSeedRoute, hf]
  · by_cases hl : r.st.llm = .succeeded
    · by_cases hb : r.st.embed = .succeeded
      · have he : earliestNonSucceeded r = .upsert := by
          simp [earliestNonSucceeded, hl, hb]
        rw [he] at hnf
        simp only [TaskRow.stageStatus] at hnf
        by_cases hu : r.st.upsert = .succeeded
        · simp [queueSeedRoute, hf, hl, hb, hu]
        · simp [queueSeedRoute, hf, hl, hb, hu, hnf]
      · have he : earliestNonSucceeded r = .embed := by
          simp [earliestNonSucceeded, hl, hb]
        rw [he] at hnf
        simp only [TaskRow.stageStatus] at hnf
        simp [queueSeedRoute, hf, hl, hb, hnf]
    · have he : earliestNonSucceeded r = .llm := by
        simp [earliestNonSucceeded, hl]
      rw [he] at hnf
      simp only [TaskRow.stageStatus] at hnf
      simp [queueSeedRoute, hf, hl, hnf]

/-- C3: for rows with pairwise distinct ids and a row satisfying the
reachable-state invariant direction `upsert = SUCCEEDED → final =
COMPLETED`, `queue_seed` skips the row when `final_status = COMPLETED`;
otherwise, it places the id exactly in the list of the earliest
non-`SUCCEEDED` stage (when `failed_only` is false, or when that stage is
`FAILED`), and in no list when `failed_only` is true and that stage is not
`FAILED`. -/
theorem queue_seed_partitions (rows : List TaskRow) (failedOnly : Bool)
    (r : TaskRow) (hmem : r ∈ rows)
    (hnodup : (rows.map TaskRow.id).Nodup)
    (hinv : r.st.upsert = .succeeded → r.st.final = .completed) :
    (r.st.final = .completed →
        ∀ st, r.id ∉ (queue_seed rows failedOnly).stageList st) ∧
    (r.st.final ≠ .completed →
      ((failedOnly = false ∨ r.stageStatus (earliestNonSucceeded r) = .failed) →
          r.id ∈ (queue_seed rows failedOnly).stageList (earliestNonSucceeded r) ∧
          ∀ st, st ≠ earliestNonSucceeded r →
            r.id ∉ (queue_seed rows failedOnly).stageList st) ∧
      (failedOnly = true → r.stageStatus (earliestNonSucceeded r) ≠ .failed →
          ∀ st, r.id ∉ (queue_seed rows failedOnly).stageList st)) := by
  have huniq : ∀ r' ∈ rows, r'.id = r.id → r' = r := by
    intro r' hr' he
    exact List.inj_on_of_nodup_map hnodup hr' hmem he
  refine ⟨?_, ?_⟩
  · intro hf st hin
    rw [mem_stageList_queue_seed] at hin
    obtain ⟨r', hr', hid, hs⟩ := hin
    have := huniq r' hr' hid
    subst this
    rw [queueSeedRoute] at hs
    rw [if_pos hf] at hs
    cases hs
  · intro hf
    refine ⟨?_, ?_⟩
    · intro hcond
      have hroute := queueSeedRoute_eq_some failedOnly r hf hinv hcond
      refine ⟨?_, ?_⟩
      · rw [mem_stageList_queue_seed]
        exact ⟨r, hmem, rfl, hroute⟩
      · intro st hne hin
        rw [mem_stageList_queue_seed] at hin
        obtain ⟨r', hr', hid, hs⟩ := hin
        have := huniq r' hr' hid
        subst this
        rw [hroute] at hs
        injection hs with h'
        exact absurd h'.symm hne
    · rintro rfl hnf st hin
      rw [mem_stageList_queue_seed] at hin
      obtain ⟨r', hr', hid, hs⟩ := hin
      have := huniq r' hr' hid
      subst this
      rw [queueSeedRoute_eq_none _ hnf] at hs
      cases hs

/-- A concrete row whose embed stage failed after a successful llm stage. -/
def demoFailedRow : TaskRow :=
  ⟨7, { llm := .succeeded, embed := .failed, upsert := .pending,
        final := .failed, embedding := none, structuredPresent := true }⟩

theorem queue_seed_partitions_witness :
    (demoFailedRow.st.final = .completed →
        ∀ st, demoFailedRow.id ∉ (queue_seed [demoFailedRow] true).stageList st) ∧
    (demoFailedRow.st.final ≠ .completed →
      ((true = false ∨
          demoFailedRow.stageStatus (earliestNonSucceeded demoFailedRow) = .failed) →
          demoFailedRow.id ∈
            (queue_seed [demoFailedRow] true).stageList
              (earliestNonSucceeded demoFailedRow) ∧
          ∀ st, st ≠ earliestNonSucceeded demoFailedRow →
            demoFailedRow.id ∉ (queue_seed [demoFailedRow] true).stageList st) ∧
      (true = true →
          demoFailedRow.stageStatus (earliestNonSucceeded demoFailedRow) ≠ .failed →
          ∀ st, demoFailedRow.id ∉ (queue_seed [demoFailedRow] true).stageList st)) :=
  queue_seed_partitions [demoFailedRow] true demoFailedRow
    (List.mem_cons_self _ _) (by decide) (by decide)

/-! ## Run finalization (`repository.py`, `finalize_run`) -/

/-- Run status, `kb_ingest_runs.status` (`models.py`, `RunStatus`). -/
inductive RunStatus
  | pendingRun
  | runningRun
  | partialFailure
  | failedRun
  | completedRun
  | cancelledRun
deriving DecidableEq, Repr

/-- The `if/elif` chain of `finalize_run` (`repository.py` lines 428-437)
over the aggregate counts. -/
def finalizeStatus (total completed failed pending : Nat) : RunStatus :=
  if completed = total ∧ 0 < total then .completedRun
  else if 0 < completed ∧ 0 < failed then .partialFailure
  else if failed = total ∧ 0 < total then .failedRun
  else if 0 < completed ∧ 0 < pending then .partialFailure
  else if 0 < failed then .failedRun
  else .runningRun

/-- The fields of a `kb_ingest_runs` row that `mark_run_started` and
`finalize_run` write.  Timestamps are abstract tick counts. -/
structure RunRow where
  status : RunStatus
  startedAt : Option Nat
  completedAt : Option Nat
  completedChunks : Nat
  failedChunks : Nat
deriving DecidableEq, Repr

/-- `mark_run_started` (`repository.py` lines 110-120):
`status := RUNNING`, `started_at := COALESCE(started_at, now())`. -/
def mark_run_started (now : Nat) (r : RunRow) : RunRow :=
  { r with status := .runningRun, startedAt := some (r.startedAt.getD now) }

/-- The count of rows of a run with a given final status
(the `COUNT(*) FILTER` aggregates of `finalize_run`). -/
def countFinal (tasks : List TaskRow) (f : FinalStatus) : Nat :=
  (tasks.filter (fun t => t.st.final = f)).length

/-- `finalize_run` (`repository.py` lines 406-462): recompute the aggregate
counts, derive the status, and write status, counters and `completed_at`
back to the run row. -/
def finalize_run (now : Nat) (tasks : List TaskRow) (r : RunRow) : RunRow :=
  let completed := countFinal tasks .completed
  let failed := countFinal tasks .failed
  let pending := countFinal tasks .pending
  { r with
    status := finalizeStatus tasks.length completed failed pending
    completedChunks := completed
    failedChunks := failed
    completedAt := some now }

/-- Modelled from the spec (section 4.3, the `finalize_run` status rule):
the first matching rule of the claimed list, written in the order the spec
gives it. -/
def specFinalizeStatus (t c f p : Nat) : RunStatus :=
  if 0 < t ∧ c = t then .completedRun
  else if 0 < c ∧ 0 < f then .partialFailure
  else if f = t ∧ 0 < t then .failedRun
  else if 0 < c ∧ 0 < p then .partialFailure
  else if 0 < f then .failedRun
  else .runningRun

/-- C4: for any multiset of task rows, the status `finalize_run` writes is
the one produced by the first matching rule of the claimed list, applied to
the counts `T = total`, `C = completed`, `F = failed`, `P = pending`. -/
theorem finalize_run_status_rule (now : Nat) (tasks : List TaskRow)
    (r : RunRow) :
    (finalize_run now tasks r).status =
      specFinalizeStatus tasks.length (countFinal tasks .completed)
        (countFinal tasks .failed) (countFinal tasks .pending) := by
  show finalizeStatus _ _ _ _ = _
  rw [finalizeStatus, specFinalizeStatus]
  split_ifs <;> first | rfl | omega

/-! ## Resume execution (`orchestrator.py`)

`resume` runs `_execute_run` and then `finalize_run`.  The three worker
pools are modelled by their sequential linearization: each seeded task id
passes through `mark_<stage>_running`, the remote call, and the
success/failure save, and a successful stage forwards the id to the next
stage queue.  This preserves the per-task effect sequence of the concurrent
workers; only effect counts and final states are claimed, never
interleaving order. -/

/-- Outcome of one remote stage call: success or failure, with the number
of remote attempts the client used for it. -/
inductive StageOutcome
  | success (attemptsUsed : Nat)
  | failure (attemptsUsed : Nat)
deriving DecidableEq, Repr

/-- The remote behaviour a run encounters, per task id. -/
structure StageOracles where
  llm : Nat → StageOutcome
  embed : Nat → StageOutcome
  embedVec : Nat → List ℚ
  upsertOk : Nat → Bool

/-- Effect counters of one execution: UPDATE statements on
`kb_ingest_runs`, UPDATE statements on `kb_ingest_tasks`, writes to
`kb_chunks`, and remote service invocations. -/
structure Effects where
  runWrites : Nat
  taskWrites : Nat
  chunkWrites : Nat
  remoteCalls : Nat
deriving DecidableEq, Repr

def effAdd (a b : Effects) : Effects :=
  ⟨a.runWrites + b.runWrites, a.taskWrites + b.taskWrites,
   a.chunkWrites + b.chunkWrites, a.remoteCalls + b.remoteCalls⟩

def zeroEffects : Effects := ⟨0, 0, 0, 0⟩

/-- Apply a repository transition to the task row with the given id
(the UPDATE ... WHERE id = task_id filter). -/
def updateTask (i : Nat) (f : TaskState → TaskState) (tasks : List TaskRow) :
    List TaskRow :=
  tasks.map (fun t => if t.id = i then ⟨t.id, f t.st⟩ else t)

/-- `_llm_worker` body for one dequeued id (`orchestrator.py` lines
140-189): mark running, call the extraction client, save success (and
forward to the embed queue) or save failure. -/
def llmWorkerStep (o : StageOracles) (i : Nat) (tasks : List TaskRow) :
    List TaskRow × Effects × List Nat :=
  let t1 := updateTask i (markStageRunning .llm) tasks
  match o.llm i with
  | .success n => (updateTask i saveLlmSuccess t1, ⟨0, 2, 0, n⟩, [i])
  | .failure n => (updateTask i (saveStageFailure .llm) t1, ⟨0, 2, 0, n⟩, [])

/-- `_embed_worker` body for one dequeued id (`orchestrator.py` lines
201-249).  A successful remote call whose vector is not 1536-dimensional is
rejected by the `vector(1536)` column and recorded as an embed failure. -/
def embedWorkerStep (o : StageOracles) (i : Nat) (tasks : List TaskRow) :
    List TaskRow × Effects × List Nat :=
  let t1 := updateTask i (markStageRunning .embed) tasks
  match o.embed i with
  | .success n =>
      if (o.embedVec i).length = 1536 then
        (updateTask i (saveEmbedSuccess (o.embedVec i)) t1, ⟨0, 2, 0, n⟩, [i])
      else
        (updateTask i (saveStageFailure .embed) t1, ⟨0, 2, 0, n⟩, [])
  | .failure n => (updateTask i (saveStageFailure .embed) t1, ⟨0, 2, 0, n⟩, [])

/-- `_upsert_worker` body for one dequeued id (`orchestrator.py` lines
260-306): no remote call; on success one `kb_chunks` write and the task
update in one transaction. -/
def upsertWorkerStep (o : StageOracles) (i : Nat) (tasks : List TaskRow) :
    List TaskRow × Effects × List Nat :=
  let t1 := updateTask i (markStageRunning .upsert) tasks
  if o.upsertOk i then
    (updateTask i saveUpsertSuccess t1, ⟨0, 2, 1, 0⟩, [])
  else
    (updateTask i (saveStageFailure .upsert) t1, ⟨0, 2, 0, 0⟩, [])

/-- Drain one stage queue: fold the worker body over the seeded ids,
collecting states, effects and forwarded ids. -/
def processStage
    (worker : Nat → List TaskRow → List TaskRow × Effects × List Nat)
    (ids : List Nat) (tasks : List TaskRow) :
    List TaskRow × Effects × List Nat :=
  ids.foldl
    (fun acc i =>
      let r := worker i acc.1
      (r.1, effAdd acc.2.1 r.2.1, acc.2.2 ++ r.2.2))
    (tasks, zeroEffects, [])

/-- The stored state `resume` reads and writes: the run row and the task
rows of the run. -/
structure PipelineState where
  run : RunRow
  tasks : List TaskRow
deriving DecidableEq, Repr

/-- `KbPipelineOrchestrator.resume` (`orchestrator.py` lines 53-65):
`_execute_run` (`mark_run_started`, `queue_seed`, drain the three stage
queues) followed by `finalize_run`.  `mark_run_started` and `finalize_run`
are one run-row UPDATE each. -/
def resume (now : Nat) (o : StageOracles) (st : PipelineState)
    (failedOnly : Bool) : PipelineState × Effects :=
  let r1 := mark_run_started now st.run
  let seed := queue_seed st.tasks failedOnly
  let p1 := processStage (llmWorkerStep o) seed.llm_task_ids st.tasks
  let p2 := processStage (embedWorkerStep o) (seed.embed_task_ids ++ p1.2.2) p1.1
  let p3 := processStage (upsertWorkerStep o) (seed.upsert_task_ids ++ p2.2.2) p2.1
  let r2 := finalize_run now p3.1 r1
  (⟨r2, p3.1⟩, effAdd (effAdd (effAdd p1.2.1 p2.2.1) p3.2.1) ⟨2, 0, 0, 0⟩)

theorem queue_seed_all_completed (tasks : List TaskRow) (failedOnly : Bool)
    (h : ∀ t ∈ tasks, t.st.final = .completed) :
    queue_seed tasks failedOnly = ⟨[], [], []⟩ := by
  induction tasks with
  | nil => rfl
  | cons t rest ih =>
      have ht : queueSeedRoute failedOnly t = none := by
        rw [queueSeedRoute, if_pos (h t (List.mem_cons_self t rest))]
      have hrest := ih (fun t' ht' => h t' (List.mem_cons_of_mem _ ht'))
      simp only [queue_seed, List.foldr_cons, ht] at hrest ⊢
      exact hrest

/-- C5 (amended): re-running `resume` on a run whose tasks are all
`COMPLETED` makes no remote calls and writes no task or chunk rows, leaves
the task rows unchanged, and ends with run status `COMPLETED` and counters
`(total, 0)`; but it does perform exactly two run-row writes
(`mark_run_started` and `finalize_run`), which set `completed_at` to the
current time and `started_at` to its old value (or the current time when
previously unset). -/
theorem resume_completed_run_effects (now : Nat) (o : StageOracles)
    (st : PipelineState) (hne : st.tasks ≠ [])
    (hall : ∀ t ∈ st.tasks, t.st.final = .completed) :
    (resume now o st false).2.remoteCalls = 0 ∧
    (resume now o st false).2.taskWrites = 0 ∧
    (resume now o st false).2.chunkWrites = 0 ∧
    (resume now o st false).2.runWrites = 2 ∧
    (resume now o st false).1.tasks = st.tasks ∧
    (resume now o st false).1.run.status = .completedRun ∧
    (resume now o st false).1.run.completedChunks = st.tasks.length ∧
    (resume now o st false).1.run.failedChunks = 0 ∧
    (resume now o st false).1.run.completedAt = some now ∧
    (resume now o st false).1.run.startedAt = some (st.run.startedAt.getD now) := by
  have hseed := queue_seed_all_completed st.tasks false hall
  have hc : countFinal st.tasks .completed = st.tasks.length := by
    rw [countFinal]
    congr 1
    exact List.filter_eq_self.mpr (fun t ht => by
      simp [hall t ht])
  have hf : countFinal st.tasks .failed = 0 := by
    rw [countFinal, List.length_eq_zero]
    refine List.filter_eq_nil_iff.mpr (fun t ht => by simp [hall t ht])
  have htotal : 0 < st.tasks.length := List.length_pos.mpr hne
  have hstat : finalizeStatus st.tasks.length
      (countFinal st.tasks .completed) (countFinal st.tasks .failed)
      (countFinal st.tasks .pending) = .completedRun := by
    rw [finalizeStatus, if_pos ⟨hc, htotal⟩]
  simp only [resume, hseed, processStage, List.foldl_nil, List.nil_append,
    finalize_run, mark_run_started, effAdd, zeroEffects]
  refine ⟨?_, ?_, ?_, ?_, ?_, ?_, ?_, ?_, ?_, ?_⟩ <;> trivial

/-- A run with one fully completed task. -/
def demoDoneState : PipelineState :=
  { run := { status := .completedRun, startedAt := some 1, completedAt := some 5,
             completedChunks := 1, failedChunks := 0 }
    tasks := [⟨1, { llm := .succeeded, embed := .succeeded, upsert := .succeeded,
                    final := .completed, embedding := none,
                    structuredPresent := true }⟩] }

/-- An arbitrary remote behaviour; `resume` on a completed run never
consults it. -/
def demoOracles : StageOracles :=
  { llm := fun _ => .failure 1
    embed := fun _ => .failure 1
    embedVec := fun _ => []
    upsertOk := fun _ => false }

theorem resume_completed_run_effects_witness :
    (resume 7 demoOracles demoDoneState false).2.remoteCalls = 0 ∧
    (resume 7 demoOracles demoDoneState false).2.taskWrites = 0 ∧
    (resume 7 demoOracles demoDoneState false).2.chunkWrites = 0 ∧
    (resume 7 demoOracles demoDoneState false).2.runWrites = 2 ∧
    (resume 7 demoOracles demoDoneState false).1.tasks = demoDoneState.tasks ∧
    (resume 7 demoOracles demoDoneState false).1.run.status = .completedRun ∧
    (resume 7 demoOracles demoDoneState false).1.run.completedChunks =
      demoDoneState.tasks.length ∧
    (resume 7 demoOracles demoDoneState false).1.run.failedChunks = 0 ∧
    (resume 7 demoOracles demoDoneState false).1.run.completedAt = some 7 ∧
    (resume 7 demoOracles demoDoneState false).1.run.startedAt =
      some (demoDoneState.run.startedAt.getD 7) :=
  resume_completed_run_effects 7 demoOracles demoDoneState (by decide)
    (by decide)

/-- C5 (counterexample to the claim as stated): on a fully completed run,
`resume` still performs run-row database writes and changes the stored
`completed_at` timestamp. -/
theorem resume_completed_run_claim_false :
    (resume 7 demoOracles demoDoneState false).2.runWrites ≠ 0 ∧
    (resume 7 demoOracles demoDoneState false).1.run.completedAt ≠
      demoDoneState.run.completedAt := by
  constructor <;> decide

/-! ## Remote clients (`llm_client.py`, `embed_client.py`)

Both `_extract_sync` and `_embed_sync` loop
`for attempt in range(request_retries + 1)`, making one remote invocation
per iteration and retrying only on HTTP 429/5xx or a network fault.  The
remote behaviour is a script: the event the `attempt`-th invocation
observes. -/

/-- What one remote invocation yields: an HTTP error status (with the
optional `Retry-After` header value), a network fault (`URLError`), or a
parsed JSON body abstracted as a payload. -/
inductive RemoteEvent (α : Type)
  | httpError (status : Nat) (retryAfter : Option String)
  | netError
  | ok (payload : α)
deriving DecidableEq, Repr

/-- `status == 429 or 500 <= status < 600` (both clients). -/
def retryableStatus (status : Nat) : Bool :=
  status == 429 || (500 ≤ status && status < 600)

/-- The exponential back-off `min(10.0, 0.75 * 2**attempt)`. -/
def backoffDelay (attempt : Nat) : ℚ :=
  min 10 ((3 : ℚ) / 4 * 2 ^ attempt)

/-- The HTTP-error delay: `float(retry_after)` when the header is a
non-empty digit string (Python `retry_after and retry_after.isdigit()`),
the back-off formula otherwise. -/
def httpDelay (retryAfter : Option String) (attempt : Nat) : ℚ :=
  match retryAfter with
  | some s =>
      if s.length ≠ 0 ∧ s.toList.all Char.isDigit then ((s.toNat?.getD 0 : Nat) : ℚ)
      else backoffDelay attempt
  | none => backoffDelay attempt

/-- When a loop iteration observing this event may retry, the delay it
sleeps before the next invocation; `none` when the event never allows a
retry (a success response, or a non-retryable HTTP status). -/
def eventRetryDelay {α : Type} : RemoteEvent α → Nat → Option ℚ
  | .httpError status ra, attempt =>
      if retryableStatus status then some (httpDelay ra attempt) else none
  | .netError, attempt => some (backoffDelay attempt)
  | .ok _, _ => none

/-- The observable result of one stage call: outcome (success value with
`attempts_used`, or the raised error message), the number of remote
invocations made, and the sequence of back-off sleeps. -/
structure CallTrace (β : Type) where
  outcome : Except String β
  calls : Nat
  sleeps : List ℚ
deriving Repr

/-- The inner validation loop of `_extract_sync` (`llm_client.py` lines
59-77): up to `validation_attempts` iterations, but the body returns on
success and breaks after the first failure, so at most one runs.
`validate` abstracts `json.loads` + `KbStructureOutput.model_validate` +
`model_dump` with the authoritative `source_title`/`source_url` overwrite;
its error is the collected validation message. -/
def validationLoop {α : Type} (attempts : Nat)
    (validate : String → Except String α) (content : String) :
    Except (List String) α :=
  match attempts with
  | 0 => .error []
  | _ + 1 =>
    match validate content with
    | .ok out => .ok out
    | .error e => .error [e]

/-- The retry loop of `_extract_sync` (`llm_client.py` lines 44-98).
`attempt` is the current iteration index, `fuel` the number of remaining
iterations (`retries + 1 - attempt`); the `fuel = 0` case is the dead code
after the loop.  Validation and non-network errors are raised without
retry; HTTP errors retry only when the status is retryable and attempts
remain; network faults retry while attempts remain. -/
def extractLoop {α : Type} (validate : String → Except String α)
    (responses : Nat → RemoteEvent String) (retries vr : Nat) :
    Nat → Nat → CallTrace (α × Nat)
  | _, 0 => ⟨.error "Unexpected LLM request loop exit", 0, []⟩
  | attempt, fuel + 1 =>
    match responses attempt with
    | .ok content =>
        match validationLoop (max 1 (vr + 1)) validate content with
        | .ok out => ⟨.ok (out, attempt + 1), 1, []⟩
        | .error es =>
            ⟨.error ("LLM structured output validation failed: " ++
                String.intercalate " | " es), 1, []⟩
    | .httpError status ra =>
        if retryableStatus status ∧ attempt < retries then
          let rest := extractLoop validate responses retries vr (attempt + 1) fuel
          ⟨rest.outcome, rest.calls + 1, httpDelay ra attempt :: rest.sleeps⟩
        else ⟨.error ("HTTP " ++ toString status), 1, []⟩
    | .netError =>
        if attempt < retries then
          let rest := extractLoop validate responses retries vr (attempt + 1) fuel
          ⟨rest.outcome, rest.calls + 1, backoffDelay attempt :: rest.sleeps⟩
        else ⟨.error "URLError", 1, []⟩

/-- `OpenRouterClient._extract_sync`: run the loop from attempt 0 with
`request_retries + 1` iterations. -/
def extract_sync {α : Type} (validate : String → Except String α)
    (responses : Nat → RemoteEvent String) (retries vr : Nat) :
    CallTrace (α × Nat) :=
  extractLoop validate responses retries vr 0 (retries + 1)

/-- The `data[0].embedding` field of an embedding response: a list, or
anything else (`malformed`). -/
inductive EmbedPayload
  | vector (xs : List ℚ)
  | malformed
deriving DecidableEq, Repr

/-- The retry loop of `_embed_sync` (`embed_client.py` lines 38-69).  A
response whose embedding is not a non-empty list raises `ValueError`
inside the `try`, which no handler catches: it fails without retry. -/
def embedLoop (responses : Nat → RemoteEvent EmbedPayload) (retries : Nat) :
    Nat → Nat → CallTrace (List ℚ × Nat)
  | _, 0 => ⟨.error "Unexpected embedding request loop exit", 0, []⟩
  | attempt, fuel + 1 =>
    match responses attempt with
    | .ok payload =>
        match payload with
        | .vector xs =>
            if xs = [] then ⟨.error "Invalid embedding response payload", 1, []⟩
            else ⟨.ok (xs, attempt + 1), 1, []⟩
        | .malformed => ⟨.error "Invalid embedding response payload", 1, []⟩
    | .httpError status ra =>
        if retryableStatus status ∧ attempt < retries then
          let rest := embedLoop responses retries (attempt + 1) fuel
          ⟨rest.outcome, rest.calls + 1, httpDelay ra attempt :: rest.sleeps⟩
        else ⟨.error ("HTTP " ++ toString status), 1, []⟩
    | .netError =>
        if attempt < retries then
          let rest := embedLoop responses retries (attempt + 1) fuel
          ⟨rest.outcome, rest.calls + 1, backoffDelay attempt :: rest.sleeps⟩
        else ⟨.error "URLError", 1, []⟩

/-- `OpenAIEmbeddingClient._embed_sync`: run the loop from attempt 0 with
`request_retries + 1` iterations. -/
def embed_sync (responses : Nat → RemoteEvent EmbedPayload) (retries : Nat) :
    CallTrace (List ℚ × Nat) :=
  embedLoop responses retries 0 (retries + 1)

theorem extractLoop_calls_le {α : Type} (validate : String → Except String α)
    (responses : Nat → RemoteEvent String) (retries vr : Nat) :
    ∀ fuel attempt,
      (extractLoop validate responses retries vr attempt fuel).calls ≤ fuel := by
  intro fuel
  induction fuel with
  | zero => intro attempt; simp [extractLoop]
  | succ fuel ih =>
      intro attempt
      rw [extractLoop]
      cases hres : responses attempt with
      | ok content =>
          dsimp only
          split <;> simp
      | httpError status ra =>
          by_cases hc : retryableStatus status ∧ attempt < retries
          · simp only [if_pos hc]
            have := ih (attempt + 1)
            omega
          · simp only [if_neg hc]
            omega
      | netError =>
          by_cases hc : attempt < retries
          · simp only [if_pos hc]
            have := ih (attempt + 1)
            omega
          · simp only [if_neg hc]
            omega

theorem extractLoop_sleeps_length {α : Type} (validate : String → Except String α)
    (responses : Nat → RemoteEvent String) (retries vr : Nat) :
    ∀ fuel attempt, 1 ≤ fuel → retries < attempt + fuel →
      (extractLoop validate responses retries vr attempt fuel).sleeps.length + 1 =
        (extractLoop validate responses retries vr attempt fuel).calls := by
  intro fuel
  induction fuel with
  | zero => intro attempt h _; omega
  | succ fuel ih =>
      intro attempt _ hbudget
      rw [extractLoop]
      cases hres : responses attempt with
      | ok content =>
          dsimp only
          split <;> simp
      | httpError status ra =>
          by_cases hc : retryableStatus status ∧ attempt < retries
          · simp only [if_pos hc, List.length_cons]
            have := ih (attempt + 1) (by omega) (by omega)
            omega
          · simp only [if_neg hc]
            simp
      | netError =>
          by_cases hc : attempt < retries
          · simp only [if_pos hc, List.length_cons]
            have := ih (attempt + 1) (by omega) (by omega)
            omega
          · simp only [if_neg hc]
            simp

theorem extractLoop_sleep_spec {α : Type} (validate : String → Except String α)
    (responses : Nat → RemoteEvent String) (retries vr : Nat) :
    ∀ fuel attempt k,
      k < (extractLoop validate responses retries vr attempt fuel).sleeps.length →
      (extractLoop validate responses retries vr attempt fuel).sleeps[k]? =
        eventRetryDelay (responses (attempt + k)) (attempt + k) := by
  intro fuel
  induction fuel with
  | zero => intro attempt k hk; simp [extractLoop] at hk
  | succ fuel ih =>
      intro attempt k hk
      rw [extractLoop] at hk ⊢
      cases hres : responses attempt with
      | ok content =>
          rw [hres] at hk
          dsimp only at hk
          split at hk <;> simp at hk
      | httpError status ra =>
          rw [hres] at hk
          by_cases hc : retryableStatus status = true ∧ attempt < retries
          · simp only [if_pos hc] at hk ⊢
            match k with
            | 0 =>
                simp [eventRetryDelay, hc.1, hres]
            | k + 1 =>
                simp only [List.getElem?_cons_succ]
                have harith : attempt + (k + 1) = attempt + 1 + k := by omega
                rw [harith]
                exact ih (attempt + 1) k (by
                  simp only [if_pos hc, List.length_cons] at hk
                  omega)
          · simp only [if_neg hc] at hk
            simp at hk
      | netError =>
          rw [hres] at hk
          by_cases hc : attempt < retries
          · simp only [if_pos hc] at hk ⊢
            match k with
            | 0 =>
                simp [eventRetryDelay, hres]
            | k + 1 =>
                simp only [List.getElem?_cons_succ]
                have harith : attempt + (k + 1) = attempt + 1 + k := by omega
                rw [harith]
                exact ih (attempt + 1) k (by
                  simp only [if_pos hc, List.length_cons] at hk
                  omega)
          · simp only [if_neg hc] at hk
            simp at hk

theorem embedLoop_calls_le (responses : Nat → RemoteEvent EmbedPayload)
    (retries : Nat) :
    ∀ fuel attempt, (embedLoop responses retries attempt fuel).calls ≤ fuel := by
  intro fuel
  induction fuel with
  | zero => intro attempt; simp [embedLoop]
  | succ fuel ih =>
      intro attempt
      rw [embedLoop]
      cases hres : responses attempt with
      | ok payload =>
          cases payload with
          | vector xs =>
              dsimp only
              by_cases hx : xs = [] <;> simp [hx]
          | malformed => simp
      | httpError status ra =>
          by_cases hc : retryableStatus status = true ∧ attempt < retries
          · simp only [if_pos hc]
            have := ih (attempt + 1)
            omega
          · simp only [if_neg hc]
            omega
      | netError =>
          by_cases hc : attempt < retries
          · simp only [if_pos hc]
            have := ih (attempt + 1)
            omega
          · simp only [if_neg hc]
            omega

theorem embedLoop_sleeps_length (responses : Nat → RemoteEvent EmbedPayload)
    (retries : Nat) :
    ∀ fuel attempt, 1 ≤ fuel → retries < attempt + fuel →
      (embedLoop responses retries attempt fuel).sleeps.length + 1 =
        (embedLoop responses retries attempt fuel).calls := by
  intro fuel
  induction fuel with
  | zero => intro attempt h _; omega
  | succ fuel ih =>
      intro attempt _ hbudget
      rw [embedLoop]
      cases hres : responses attempt with
      | ok payload =>
          cases payload with
          | vector xs =>
              dsimp only
              by_cases hx : xs = [] <;> simp [hx]
          | malformed => simp
      | httpError status ra =>
          by_cases hc : retryableStatus status = true ∧ attempt < retries
          · simp only [if_pos hc, List.length_cons]
            have := ih (attempt + 1) (by omega) (by omega)
            omega
          · simp only [if_neg hc]
            simp
      | netError =>
          by_cases hc : attempt < retries
          · simp only [if_pos hc, List.length_cons]
            have := ih (attempt + 1) (by omega) (by omega)
            omega
          · simp only [if_neg hc]
            simp

theorem embedLoop_sleep_spec (responses : Nat → RemoteEvent EmbedPayload)
    (retries : Nat) :
    ∀ fuel attempt k,
      k < (embedLoop responses retries attempt fuel).sleeps.length →
      (embedLoop responses retries attempt fuel).sleeps[k]? =
        eventRetryDelay (responses (attempt + k)) (attempt + k) := by
  intro fuel
  induction fuel with
  | zero => intro attempt k hk; simp [embedLoop] at hk
  | succ fuel ih =>
      intro attempt k hk
      rw [embedLoop] at hk ⊢
      cases hres : responses attempt with
      | ok payload =>
          rw [hres] at hk
          cases payload with
          | vector xs =>
              dsimp only at hk
              by_cases hx : xs = [] <;> simp [hx] at hk
          | malformed => simp at hk
      | httpError status ra =>
          rw [hres] at hk
          by_cases hc : retryableStatus status = true ∧ attempt < retries
          · simp only [if_pos hc] at hk ⊢
            match k with
            | 0 =>
                simp [eventRetryDelay, hc.1, hres]
            | k + 1 =>
                simp only [List.getElem?_cons_succ]
                have harith : attempt + (k + 1) = attempt + 1 + k := by omega
                rw [harith]
                exact ih (attempt + 1) k (by
                  simp only [if_pos hc, List.length_cons] at hk
                  omega)
          · simp only [if_neg hc] at hk
            simp at hk
      | netError =>
          rw [hres] at hk
          by_cases hc : attempt < retries
          · simp only [if_pos hc] at hk ⊢
            match k with
            | 0 =>
                simp [eventRetryDelay, hres]
            | k + 1 =>
                simp only [List.getElem?_cons_succ]
                have harith : attempt + (k + 1) = attempt + 1 + k := by omega
                rw [harith]
                exact ih (attempt + 1) k (by
                  simp only [if_pos hc, List.length_cons] at hk
                  omega)
          · simp only [if_neg hc] at hk
            simp at hk

/-- C8: a stage call of either client invokes the remote service at most
`1 + request_retries` times; every invocation beyond the first is preceded
by exactly one recorded back-off sleep, and the `k`-th sleep exists only
when the `k`-th invocation observed an HTTP 429/5xx or a network fault,
with delay `min(10, 0.75 * 2^k)` seconds unless a numeric `Retry-After`
header overrides it (the content of `eventRetryDelay`). -/
theorem stage_call_retry_discipline {α : Type}
    (validate : String → Except String α)
    (lresp : Nat → RemoteEvent String) (eresp : Nat → RemoteEvent EmbedPayload)
    (retries vr k j : Nat)
    (hk : k < (extract_sync validate lresp retries vr).sleeps.length)
    (hj : j < (embed_sync eresp retries).sleeps.length) :
    (extract_sync validate lresp retries vr).calls ≤ 1 + retries ∧
    (embed_sync eresp retries).calls ≤ 1 + retries ∧
    (extract_sync validate lresp retries vr).sleeps.length + 1 =
      (extract_sync validate lresp retries vr).calls ∧
    (embed_sync eresp retries).sleeps.length + 1 =
      (embed_sync eresp retries).calls ∧
    (extract_sync validate lresp retries vr).sleeps[k]? =
      eventRetryDelay (lresp k) k ∧
    (embed_sync eresp retries).sleeps[j]? = eventRetryDelay (eresp j) j := by
  refine ⟨?_, ?_, ?_, ?_, ?_, ?_⟩
  · have := extractLoop_calls_le validate lresp retries vr (retries + 1) 0
    rw [extract_sync]
    omega
  · have := embedLoop_calls_le eresp retries (retries + 1) 0
    rw [embed_sync]
    omega
  · exact extractLoop_sleeps_length validate lresp retries vr (retries + 1) 0
      (by omega) (by omega)
  · exact embedLoop_sleeps_length eresp retries (retries + 1) 0
      (by omega) (by omega)
  · have := extractLoop_sleep_spec validate lresp retries vr (retries + 1) 0 k hk
    simpa using this
  · have := embedLoop_sleep_spec eresp retries (retries + 1) 0 j hj
    simpa using this

/-- The extraction script of a retry-then-success run: a 503 on the first
invocation, then a valid response. -/
def demoLlmResponses : Nat → RemoteEvent String :=
  fun n => if n = 0 then .httpError 503 none else .ok "payload"

/-- A validator accepting every response body. -/
def demoValidateOk : String → Except String Nat := fun _ => .ok 0

/-- The embedding script of a retry-then-success run: a network fault, then
a valid one-entry vector. -/
def demoEmbedResponses : Nat → RemoteEvent EmbedPayload :=
  fun n => if n = 0 then .netError else .ok (.vector [1])

theorem stage_call_retry_discipline_witness :
    (extract_sync demoValidateOk demoLlmResponses 3 1).calls ≤ 1 + 3 ∧
    (embed_sync demoEmbedResponses 3).calls ≤ 1 + 3 ∧
    (extract_sync demoValidateOk demoLlmResponses 3 1).sleeps.length + 1 =
      (extract_sync demoValidateOk demoLlmResponses 3 1).calls ∧
    (embed_sync demoEmbedResponses 3).sleeps.length + 1 =
      (embed_sync demoEmbedResponses 3).calls ∧
    (extract_sync demoValidateOk demoLlmResponses 3 1).sleeps[0]? =
      eventRetryDelay (demoLlmResponses 0) 0 ∧
    (embed_sync demoEmbedResponses 3).sleeps[0]? =
      eventRetryDelay (demoEmbedResponses 0) 0 :=
  stage_call_retry_discipline demoValidateOk demoLlmResponses
    demoEmbedResponses 3 1 0 0 (by decide) (by decide)

/-- C7: when the first remote response parses or schema-validates
unsuccessfully, the extraction call makes exactly one remote invocation and
fails with the validation error, for every remaining retry budget; the
worker records the exception via `save_llm_failure`, which sets
`final_status = FAILED`. -/
theorem validation_failure_not_retried {α : Type}
    (validate : String → Except String α)
    (responses : Nat → RemoteEvent String) (retries vr : Nat)
    (content e : String) (s : TaskState)
    (h0 : responses 0 = .ok content) (hv : validate content = .error e) :
    (extract_sync validate responses retries vr).calls = 1 ∧
    (extract_sync validate responses retries vr).outcome =
      .error ("LLM structured output validation failed: " ++
        String.intercalate " | " [e]) ∧
    (saveStageFailure .llm s).final = .failed := by
  have hmax : max 1 (vr + 1) = vr + 1 := by omega
  have hval : validationLoop (max 1 (vr + 1)) validate content =
      .error [e] := by
    rw [hmax, validationLoop, hv]
  refine ⟨?_, ?_, by simp [saveStageFailure]⟩ <;>
    rw [extract_sync, extractLoop, h0] <;>
    dsimp only <;>
    rw [hval]

theorem validation_failure_not_retried_witness :
    (extract_sync (fun _ => (.error "missing field" : Except String Nat))
        (fun _ => .ok "not quite json") 5 9).calls = 1 ∧
    (extract_sync (fun _ => (.error "missing field" : Except String Nat))
        (fun _ => .ok "not quite json") 5 9).outcome =
      .error ("LLM structured output validation failed: " ++
        String.intercalate " | " ["missing field"]) ∧
    (saveStageFailure .llm initTask).final = .failed :=
  validation_failure_not_retried (fun _ => .error "missing field")
    (fun _ => .ok "not quite json") 5 9 "not quite json" "missing field"
    initTask rfl rfl

theorem validationLoop_succ {α : Type} (n : Nat)
    (validate : String → Except String α) (content : String) :
    validationLoop (n + 1) validate content =
      match validate content with
      | .ok out => .ok out
      | .error e => .error [e] := rfl

/-- C10: the extraction result and its remote invocation count do not
depend on `llm_validation_retries`: the inner validation loop performs
exactly one validation attempt per response, whatever its bound. -/
theorem extract_ignores_validation_budget {α : Type}
    (validate : String → Except String α)
    (responses : Nat → RemoteEvent String) (retries vr1 vr2 : Nat) :
    extract_sync validate responses retries vr1 =
      extract_sync validate responses retries vr2 := by
  have h1 : max 1 (vr1 + 1) = vr1 + 1 := by omega
  have h2 : max 1 (vr2 + 1) = vr2 + 1 := by omega
  have hloop : ∀ fuel attempt,
      extractLoop validate responses retries vr1 attempt fuel =
        extractLoop validate responses retries vr2 attempt fuel := by
    intro fuel
    induction fuel with
    | zero => intro attempt; rfl
    | succ fuel ih =>
        intro attempt
        rw [extractLoop, extractLoop]
        cases hres : responses attempt with
        | ok content =>
            dsimp only
            rw [h1, h2, validationLoop_succ, validationLoop_succ]
        | httpError status ra =>
            dsimp only
            simp only [ih]
        | netError =>
            dsimp only
            simp only [ih]
  rw [extract_sync, extract_sync, hloop]

/-! ## Planner context selection (`chunking.py`, `plan_from_kb`)

The per-source task construction of `plan_from_kb` (lines 104-138), for one
already-chunked document.  Hashing (`_sha256_text`) and token counting
(`len(enc.encode(...))`) are external deterministic functions, passed as
parameters. -/

/-- `context_mode` (`models.py`, `ContextMode`). -/
inductive ContextMode
  | fullDoc
  | surroundingChunks
deriving DecidableEq, Repr

/-- `ChunkTaskPlan` (`models.py`). -/
structure ChunkTaskPlan where
  source_id : String
  chunk_index : Nat
  chunk_count : Nat
  raw_text : String
  raw_text_sha256 : String
  chunk_token_count : Nat
  doc_token_count : Nat
  context_mode : ContextMode
  context_window_start : Nat
  context_window_end : Nat
  context_text : String
deriving DecidableEq, Repr

/-- The loop body of `plan_from_kb` for chunk `idx` (`chunking.py` lines
104-138): full-document context at or below the threshold, otherwise the
window of up to three neighbors on each side, excluding the chunk itself,
with `"[Chunk k/N]"` headers joined by blank lines. -/
def mkChunkTask (sha : String → String) (tokCount : String → Nat)
    (sourceId docText : String) (docTokens threshold : Nat)
    (chunks : List String) (idx : Nat) : ChunkTaskPlan :=
  let rawChunk := chunks.getD idx ""
  if docTokens ≤ threshold then
    { source_id := sourceId
      chunk_index := idx
      chunk_count := chunks.length
      raw_text := rawChunk
      raw_text_sha256 := sha rawChunk
      chunk_token_count := tokCount rawChunk
      doc_token_count := docTokens
      context_mode := .fullDoc
      context_window_start := 0
      context_window_end := chunks.length - 1
      context_text := docText }
  else
    let top := idx - 3
    let bottom := min (chunks.length - 1) (idx + 3)
    let neighbors :=
      ((List.range' top (bottom + 1 - top)).filter (fun n => n ≠ idx)).map
        (fun n =>
          "[Chunk " ++ toString (n + 1) ++ "/" ++ toString chunks.length ++
            "]\n" ++ chunks.getD n "")
    { source_id := sourceId
      chunk_index := idx
      chunk_count := chunks.length
      raw_text := rawChunk
      raw_text_sha256 := sha rawChunk
      chunk_token_count := tokCount rawChunk
      doc_token_count := docTokens
      context_mode := .surroundingChunks
      context_window_start := top
      context_window_end := bottom
      context_text := String.intercalate "\n\n" neighbors }

/-- The task plans one source contributes: one per chunk index, truncated
when the global `max_chunks` cap leaves only `cap` slots (the
`len(task_plans) >= max_chunks: break` check runs before each append). -/
def planTasksForSource (sha : String → String) (tokCount : String → Nat)
    (sourceId docText : String) (docTokens threshold : Nat)
    (chunks : List String) (cap : Option Nat) : List ChunkTaskPlan :=
  let all := (List.range chunks.length).map
    (mkChunkTask sha tokCount sourceId docText docTokens threshold chunks)
  match cap with
  | none => all
  | some c => all.take c

/-- Modelled from the spec (planner step 5): the surrounding-chunks context
text, neighbors in `[max(0, i-3), min(N-1, i+3)]` excluding `i`, each with
a `"[Chunk k/N]"` header, separated by blank lines. -/
def specSurroundingContext (chunks : List String) (i : Nat) : String :=
  let top := max 0 (i - 3)
  let bottom := min (chunks.length - 1) (i + 3)
  String.intercalate "\n\n"
    (((List.range' top (bottom + 1 - top)).filter (fun j => j ≠ i)).map
      (fun j =>
        "[Chunk " ++ toString (j + 1) ++ "/" ++ toString chunks.length ++
          "]\n" ++ chunks.getD j ""))

/-- C9: every emitted chunk task carries its chunk index; at or below the
token threshold it has `FULL_DOC` context with the whole document and
window `[0, N-1]`, otherwise `SURROUNDING_CHUNKS` context with window
`[max(0, i-3), min(N-1, i+3)]` and the headed, blank-line-separated
neighbor text. -/
theorem plan_context_assignment (sha : String → String)
    (tokCount : String → Nat) (sourceId docText : String)
    (docTokens threshold : Nat) (chunks : List String) (cap : Option Nat)
    (jdx : Nat)
    (hj : jdx <
      (planTasksForSource sha tokCount sourceId docText docTokens threshold
        chunks cap).length) :
    ((planTasksForSource sha tokCount sourceId docText docTokens threshold
        chunks cap).get ⟨jdx, hj⟩).chunk_index = jdx ∧
    (docTokens ≤ threshold →
      ((planTasksForSource sha tokCount sourceId docText docTokens threshold
          chunks cap).get ⟨jdx, hj⟩).context_mode = .fullDoc ∧
      ((planTasksForSource sha tokCount sourceId docText docTokens threshold
          chunks cap).get ⟨jdx, hj⟩).context_text = docText ∧
      ((planTasksForSource sha tokCount sourceId docText docTokens threshold
          chunks cap).get ⟨jdx, hj⟩).context_window_start = 0 ∧
      ((planTasksForSource sha tokCount sourceId docText docTokens threshold
          chunks cap).get ⟨jdx, hj⟩).context_window_end = chunks.length - 1) ∧
    (threshold < docTokens →
      ((planTasksForSource sha tokCount sourceId docText docTokens threshold
          chunks cap).get ⟨jdx, hj⟩).context_mode = .surroundingChunks ∧
      ((planTasksForSource sha tokCount sourceId docText docTokens threshold
          chunks cap).get ⟨jdx, hj⟩).context_window_start = max 0 (jdx - 3) ∧
      ((planTasksForSource sha tokCount sourceId docText docTokens threshold
          chunks cap).get ⟨jdx, hj⟩).context_window_end =
        min (chunks.length - 1) (jdx + 3) ∧
      ((planTasksForSource sha tokCount sourceId docText docTokens threshold
          chunks cap).get ⟨jdx, hj⟩).context_text =
        specSurroundingContext chunks jdx) := by
  have hget : (planTasksForSource sha tokCount sourceId docText docTokens
      threshold chunks cap).get ⟨jdx, hj⟩ =
      mkChunkTask sha tokCount sourceId docText docTokens threshold chunks jdx := by
    rcases cap with _ | c
    · have hlen : jdx < (List.range chunks.length).length := by
        simpa [planTasksForSource] using hj
      simp [planTasksForSource, List.get_eq_getElem]
    · have hj' : jdx < ((List.range chunks.length).map
          (mkChunkTask sha tokCount sourceId docText docTokens threshold
            chunks)).length := by
        have := hj
        simp only [planTasksForSource] at this
        exact lt_of_lt_of_le this (by
          simp [List.length_take_le c _])
      simp [planTasksForSource, List.get_eq_getElem, List.getElem_take]
  rw [hget]
  by_cases hth : docTokens ≤ threshold
  · refine ⟨?_, fun _ => ⟨?_, ?_, ?_, ?_⟩, fun hgt => absurd hth (by omega)⟩ <;>
      simp [mkChunkTask, hth]
  · refine ⟨?_, fun hle => absurd hle hth, fun _ => ⟨?_, ?_, ?_, ?_⟩⟩ <;>
      simp [mkChunkTask, hth, specSurroundingContext, Nat.zero_max]

theorem plan_context_assignment_witness :
    ((planTasksForSource (fun _ => "h") (fun _ => 1) "src" "doc text" 10 3
        ["a", "b"] none).get ⟨0, by decide⟩).chunk_index = 0 ∧
    (10 ≤ 3 →
      ((planTasksForSource (fun _ => "h") (fun _ => 1) "src" "doc text" 10 3
          ["a", "b"] none).get ⟨0, by decide⟩).context_mode = .fullDoc ∧
      ((planTasksForSource (fun _ => "h") (fun _ => 1) "src" "doc text" 10 3
          ["a", "b"] none).get ⟨0, by decide⟩).context_text = "doc text" ∧
      ((planTasksForSource (fun _ => "h") (fun _ => 1) "src" "doc text" 10 3
          ["a", "b"] none).get ⟨0, by decide⟩).context_window_start = 0 ∧
      ((planTasksForSource (fun _ => "h") (fun _ => 1) "src" "doc text" 10 3
          ["a", "b"] none).get ⟨0, by decide⟩).context_window_end =
        (["a", "b"] : List String).length - 1) ∧
    (3 < 10 →
      ((planTasksForSource (fun _ => "h") (fun _ => 1) "src" "doc text" 10 3
          ["a", "b"] none).get ⟨0, by decide⟩).context_mode =
        .surroundingChunks ∧
      ((planTasksForSource (fun _ => "h") (fun _ => 1) "src" "doc text" 10 3
          ["a", "b"] none).get ⟨0, by decide⟩).context_window_start =
        max 0 (0 - 3) ∧
      ((planTasksForSource (fun _ => "h") (fun _ => 1) "src" "doc text" 10 3
          ["a", "b"] none).get ⟨0, by decide⟩).context_window_end =
        min ((["a", "b"] : List String).length - 1) (0 + 3) ∧
      ((planTasksForSource (fun _ => "h") (fun _ => 1) "src" "doc text" 10 3
          ["a", "b"] none).get ⟨0, by decide⟩).context_text =
        specSurroundingContext ["a", "b"] 0) :=
  plan_context_assignment (fun _ => "h") (fun _ => 1) "src" "doc text" 10 3
    ["a", "b"] none 0 (by decide)

end KbPipeline
